import Mathlib

/-!
Shallow embedding of `src/libs/autoattack/square.py` (class `SquareAttack`).

Modelling conventions:

* Tensor scalars (pixel values, Dice scores, `eps`, the query counters, which
  the source keeps as floats) are embedded as `ℚ`; the indicator arithmetic of
  the source (`.half()` masks holding exactly 0.0 or 1.0) is embedded as
  `if`/`then`/`else` on the corresponding decidable comparisons.
* A batch of `k` images whose elements are indexed by a type `E`
  (in the source: the `(c, d, h, w)` grid) is a function `Fin k → E → ℚ`;
  per-example scalars are `Fin k → ℚ`.
* The composite of the external oracle `predict` and the Dice metric
  (`margin_and_loss`, lines 69-76, which returns the same Dice value twice,
  once as the margin and once as the loss) is embedded as a per-example score
  function `score : Fin k → (E → ℚ) → ℚ`; the source applies `predict` to a
  whole batch at once, with each example's Dice score depending only on that
  example's image and label.  The field `predictCalls` of `RunState` counts
  how many times the source invokes `predict` (one batched call at line 178,
  and three batched calls per loop iteration: lines 208, 228 and 230).
* The randomness of the source is passed in as explicit streams: `initSign`
  stands for the `random_choice` draw of lines 176-177 (values in `{-1,0,1}`),
  and `delta i` stands for the `new_deltas` tensor built at iteration `i` by
  lines 192-201 (`p_selection`, the cuboid side `s`, the anchors
  `vd`/`vh`/`vw` and the per-channel signs); `new_deltas` depends only on the
  iteration's random draws, never on the optimizer state, so any claim proved
  for every stream holds for the source.  The schedule `p_selection` itself
  (lines 141-167) is embedded separately below.
* The rank-preserving fix-ups of the source (`check_shape`, the `unsqueeze`
  of `y_curr` at lines 187-188) are shape bookkeeping that is the identity in
  this functional embedding.
-/

namespace SquareAttack

/-- Model of `torch.clamp(v, 0., 1.)` (lines 177 and 205). -/
def clamp01 (v : ℚ) : ℚ := max 0 (min v 1)

/-- Model of `torch.min(torch.max(v, x - eps), x + eps)` (lines 203-204):
clip `v` into the L∞ ball of radius `eps` around `x`. -/
def clipBall (x eps v : ℚ) : ℚ := min (max v (x - eps)) (x + eps)

/-- Model of `p_selection` (lines 141-167).  The source computes the rescaled
iteration index as `int(it / self.n_queries * 10000)` in floating point; with
nonnegative operands this truncating expression is embedded exactly as the
truncating natural division `it * 10000 / n_queries` (the two agree at every
input used by the claims). -/
def p_selection (p_init : ℚ) (n_queries : ℕ) (rescale : Bool) (it : ℕ) : ℚ :=
  let it := if rescale then it * 10000 / n_queries else it
  if 10 < it ∧ it ≤ 50 then p_init / 2
  else if 50 < it ∧ it ≤ 200 then p_init / 4
  else if 200 < it ∧ it ≤ 500 then p_init / 8
  else if 500 < it ∧ it ≤ 1000 then p_init / 16
  else if 1000 < it ∧ it ≤ 2000 then p_init / 32
  else if 2000 < it ∧ it ≤ 4000 then p_init / 64
  else if 4000 < it ∧ it ≤ 6000 then p_init / 128
  else if 6000 < it ∧ it ≤ 8000 then p_init / 256
  else if 8000 < it then p_init / 512
  else p_init

/-- Model of the default value of the `seed` parameter of
`SquareAttack.__init__` (line 46): the default is the number `0`, not
Python's `None` (`none` here). -/
def default_seed : Option ℚ := some 0

/-- Model of the seed resolution in `init_hyperparam` (lines 86-87):
`if self.seed is None: self.seed = time.time()`.  The wall clock
(`time.time()`) is passed in as the argument `wallClock`. -/
def resolve_seed (seed : Option ℚ) (wallClock : ℚ) : ℚ :=
  seed.getD wallClock

/-- Parameters of one call of `attack_single_run` (lines 169-247) on a batch
of `k` examples with elements indexed by `E`. -/
structure RunCfg (k : ℕ) (E : Type) where
  /-- the L∞ budget `self.eps` -/
  eps : ℚ
  /-- the success threshold `self.dice_thresh` (τ) -/
  thresh : ℚ
  /-- the iteration budget `self.n_queries` -/
  nq : ℕ
  /-- the original batch `x` -/
  x : Fin k → E → ℚ
  /-- per-example oracle metric: `score j img` is the Dice score
  `self.dice(self.predict(img), y_j)` of example `j`'s label -/
  score : Fin k → (E → ℚ) → ℚ
  /-- the `new_deltas` tensor of iteration `i` (lines 192-201) -/
  delta : ℕ → E → ℚ
  /-- the initial `random_choice` sign pattern (lines 176-177) -/
  initSign : Fin k → E → ℚ

/-- Mutable state of the main loop of `attack_single_run`. -/
structure RunState (k : ℕ) (E : Type) where
  /-- current best adversarial image per example (`x_best`) -/
  xBest : Fin k → E → ℚ
  /-- current best margin per example (`margin_min`) -/
  marginMin : Fin k → ℚ
  /-- current best loss per example (`loss_min`) -/
  lossMin : Fin k → ℚ
  /-- per-example query counter (`n_queries`, a float tensor in the source) -/
  nQueries : Fin k → ℚ
  /-- instrumentation: number of `predict` invocations made so far -/
  predictCalls : ℕ

variable {k : ℕ} {E : Type}

/-- Initial state of `attack_single_run` (lines 176-179): `x_best` is the
original batch plus an `eps`-scaled sign pattern, clamped to `[0,1]`;
`margin_min` and `loss_min` are the Dice scores of `x_best` (one `predict`
call, line 178); the query counters start at 1 (`torch.ones`, line 179). -/
def initState (c : RunCfg k E) : RunState k E :=
  let xb : Fin k → E → ℚ := fun j e => clamp01 (c.x j e + c.eps * c.initSign j e)
  { xBest := xb
    marginMin := fun j => c.score j (xb j)
    lossMin := fun j => c.score j (xb j)
    nQueries := fun _ => 1
    predictCalls := 1 }

/-- The candidate image built for example `j` at iteration `i`
(lines 202-205): `x_best` plus the iteration's `new_deltas`, clipped into the
`eps`-ball around the original and clamped to `[0,1]`. -/
def xNewAt (c : RunCfg k E) (i : ℕ) (st : RunState k E) (j : Fin k) : E → ℚ :=
  fun e => clamp01 (clipBall (c.x j e) c.eps (st.xBest j e + c.delta i e))

/-- One iteration of the main loop of `attack_single_run` (lines 181-245,
minus the final break test).  An example is in the active set `idx_to_fool`
when `margin_min > dice_thresh` (line 183).  For active examples:
`loss_min` is replaced when the candidate's loss is strictly smaller
(`idx_improved`, lines 210-213); `margin_min` and `x_best` are replaced when
additionally the candidate's margin is below the threshold
(`idx_miscl` / `torch.max`, lines 217-225); the query counter gains 1
(line 226).  Inactive examples are untouched.  `predict` is invoked three
times: on the candidate batch inside `margin_and_loss` (line 208), and twice
on the full `x_best` batch (lines 228 and 230). -/
def step (c : RunCfg k E) (i : ℕ) (st : RunState k E) : RunState k E :=
  let cand : Fin k → E → ℚ := fun j => xNewAt c i st j
  let dice : Fin k → ℚ := fun j => c.score j (cand j)
  { xBest := fun j =>
      if c.thresh < st.marginMin j ∧ (dice j < st.lossMin j ∨ dice j < c.thresh)
      then cand j else st.xBest j
    marginMin := fun j =>
      if c.thresh < st.marginMin j ∧ (dice j < st.lossMin j ∨ dice j < c.thresh)
      then dice j else st.marginMin j
    lossMin := fun j =>
      if c.thresh < st.marginMin j ∧ dice j < st.lossMin j
      then dice j else st.lossMin j
    nQueries := fun j =>
      if c.thresh < st.marginMin j then st.nQueries j + 1 else st.nQueries j
    predictCalls := st.predictCalls + 3 }

/-- The break test of lines 229-231 and 244: every example of the run's batch
scores below the threshold on the current `x_best`. -/
def allSucc (c : RunCfg k E) (st : RunState k E) : Prop :=
  ∀ j, c.score j (st.xBest j) < c.thresh

instance (c : RunCfg k E) (st : RunState k E) : Decidable (allSucc c st) :=
  inferInstanceAs (Decidable (∀ j, c.score j (st.xBest j) < c.thresh))

/-- The iterations of the main loop starting at iteration index `i`, with
`fuel` iterations left of `for i_iter in range(self.n_queries)`.  Returns the
final state together with the number of iterations actually executed
(the loop breaks at the end of the first iteration whose updated `x_best`
passes the test of line 244). -/
def runFrom (c : RunCfg k E) : ℕ → ℕ → RunState k E → RunState k E × ℕ
  | _, 0, st => (st, 0)
  | i, fuel + 1, st =>
    let st1 := step c i st
    if allSucc c st1 then (st1, 1)
    else ((runFrom c (i + 1) fuel st1).1, (runFrom c (i + 1) fuel st1).2 + 1)

/-- The whole loop of `attack_single_run`: iterations `0, 1, ...` with the
budget `c.nq`, from the freshly initialized state. -/
def runExec (c : RunCfg k E) : RunState k E × ℕ :=
  runFrom c 0 c.nq (initState c)

/-- Model of `attack_single_run` (lines 169-247): returns the per-example
query counters and the final `x_best` (line 247). -/
def attack_single_run (c : RunCfg k E) : (Fin k → ℚ) × (Fin k → E → ℚ) :=
  ((runExec c).1.nQueries, (runExec c).1.xBest)

/-- The state reached after the first `t` iterations of the main loop when no
break is taken: `stateAfter c 0` is the initialized state and
`stateAfter c (t+1)` applies iteration `t`.  The trace actually executed by
`runExec` is a prefix of this sequence (see `runFrom_fst`). -/
def stateAfter (c : RunCfg k E) : ℕ → RunState k E
  | 0 => initState c
  | t + 1 => step c t (stateAfter c t)

/-- Applying `m` successive loop iterations starting at iteration index `i`. -/
def iterFrom (c : RunCfg k E) : ℕ → ℕ → RunState k E → RunState k E
  | _, 0, st => st
  | i, m + 1, st => iterFrom c (i + 1) m (step c i st)

/-- The Dice score of the candidate image built for example `j` at iteration
`t` (the `margin` and `loss` of line 208, which coincide in this
instantiation). -/
def diceAt (c : RunCfg k E) (t : ℕ) (j : Fin k) : ℚ :=
  c.score j (xNewAt c t (stateAfter c t) j)

/-- Parameters of one call of `perturb` (lines 249-293) on a batch of `n`
examples with elements indexed by `E` and labels of type `L`.  Only the
labels-supplied path is modelled (the `y is None` branch of lines 258-262,
marked experimental in the source, is outside the claims).  Randomness is a
stream per restart: `initSign t` and `delta t` feed restart `t`'s call of
`attack_single_run` (subset positions are addressed by plain naturals because
the subset size varies per restart). -/
structure AtkCfg (n : ℕ) (E L : Type) where
  /-- the L∞ budget `self.eps` -/
  eps : ℚ
  /-- the success threshold `self.dice_thresh` (τ) -/
  thresh : ℚ
  /-- the per-restart iteration budget `self.n_queries` -/
  nq : ℕ
  /-- the restart count `self.n_restarts` -/
  nRestarts : ℕ
  /-- the clean batch `x` -/
  x : Fin n → E → ℚ
  /-- the labels `y` -/
  y : Fin n → L
  /-- oracle metric: `score l img` is `self.dice(self.predict(img), l)` -/
  score : L → (E → ℚ) → ℚ
  /-- `new_deltas` stream of restart `t` -/
  delta : ℕ → ℕ → E → ℚ
  /-- initial sign stream of restart `t` (indexed by subset position) -/
  initSign : ℕ → ℕ → E → ℚ

/-- State of the restart loop of `perturb`: the per-example robustness flags
`acc` (line 266), the running merged output batch `adv` (line 257), and the
local variable `adv_curr` of the loop body, which is unbound (`none`) until
the first restart that actually runs the optimizer — returning it while
unbound is Python's `UnboundLocalError` (see `perturb`).  Alongside
`adv_curr` we record, as ghost data, the list of original indices
(`ind_to_fool`) its positions refer to. -/
structure PState (n : ℕ) (E : Type) where
  /-- `acc`: true while the model is still robust on that example -/
  acc : Fin n → Bool
  /-- `adv`: the running merged output batch -/
  adv : Fin n → E → ℚ
  /-- the loop-local `adv_curr` with its ghost index map -/
  advCurr : Option (Σ m : ℕ, (Fin m → Fin n) × (Fin m → E → ℚ))

variable {n : ℕ} {L : Type}

/-- `ind_to_fool` (line 274): the indices whose `acc` flag is still set. -/
def indToFool (st : PState n E) : List (Fin n) :=
  (List.finRange n).filter (fun j => st.acc j)

/-- The `RunCfg` of restart `t` on the subset `inds` of the original batch:
`x_to_fool` / `y_to_fool` of lines 278-279. -/
def subCfg (a : AtkCfg n E L) (t : ℕ) (inds : List (Fin n)) :
    RunCfg inds.length E :=
  { eps := a.eps
    thresh := a.thresh
    nq := a.nq
    x := fun i => a.x (inds.get i)
    score := fun i img => a.score (a.y (inds.get i)) img
    delta := a.delta t
    initSign := fun i => a.initSign t i.val }

/-- One restart (loop body of lines 273-291).  If the active subset is empty
(`ind_to_fool.numel() == 0`, line 277) nothing happens.  Otherwise the
optimizer runs on the subset (line 281, the returned query counters are
discarded), the subset is re-scored (line 282), and every subset example that
is no longer robust has its `acc` flag cleared and its adversarial image
merged into `adv` at the original index (lines 283-286). -/
def restartStep (a : AtkCfg n E L) (t : ℕ) (st : PState n E) : PState n E :=
  let inds := indToFool st
  if inds.length = 0 then st
  else
    let advC := (attack_single_run (subCfg a t inds)).2
    let accCurr : Fin inds.length → Bool := fun i =>
      decide (a.thresh < a.score (a.y (inds.get i)) (advC i))
    let find : Fin n → Option (Fin inds.length) := fun j =>
      (List.finRange inds.length).find? (fun i =>
        decide (inds.get i = j) && ! accCurr i)
    { acc := fun j => match find j with
        | some _ => false
        | none => st.acc j
      adv := fun j => match find j with
        | some i => advC i
        | none => st.adv j
      advCurr := some ⟨inds.length, (fun i => inds.get i, advC)⟩ }

/-- The state before the first restart: `acc` from the initial scoring of the
clean batch (line 266), `adv = x.clone()` (line 257), `adv_curr` unbound. -/
def pInit (a : AtkCfg n E L) : PState n E :=
  { acc := fun j => decide (a.thresh < a.score (a.y j) (a.x j))
    adv := a.x
    advCurr := none }

/-- The restart loop, `r` restarts remaining, next restart index `t`. -/
def pLoopFrom (a : AtkCfg n E L) : ℕ → ℕ → PState n E → PState n E
  | _, 0, st => st
  | t, r + 1, st => pLoopFrom a (t + 1) r (restartStep a t st)

/-- The state after all `n_restarts` restarts of `perturb`. -/
def perturbFinal (a : AtkCfg n E L) : PState n E :=
  pLoopFrom a 0 a.nRestarts (pInit a)

/-- Model of `perturb` (lines 249-293).  The source's `return adv_curr`
(line 293) returns the loop-local variable of the last restart that ran the
optimizer — a batch sized by that restart's subset — and raises
`UnboundLocalError` (here `none`) when no restart ever ran it. -/
def perturb (a : AtkCfg n E L) : Option (Σ m : ℕ, Fin m → E → ℚ) :=
  (perturbFinal a).advCurr.map (fun p => ⟨p.1, p.2.2⟩)

/-- The budget property of a (possibly unbound) `adv_curr`: every element of
the carried batch stays within `eps` of the corresponding element of the
original batch and inside `[0,1]`. -/
def advCurrOK (a : AtkCfg n E L) :
    Option (Σ m : ℕ, (Fin m → Fin n) × (Fin m → E → ℚ)) → Prop
  | none => True
  | some p => ∀ i e, |p.2.2 i e - a.x (p.2.1 i) e| ≤ a.eps
      ∧ 0 ≤ p.2.2 i e ∧ p.2.2 i e ≤ 1

/-- Concrete one-example run whose oracle always reports Dice 1 (never below
the threshold 1/2): the run exhausts its budget of a single iteration. -/
def cfgW6 : RunCfg 1 (Fin 1) :=
  { eps := 1/10
    thresh := 1/2
    nq := 1
    x := fun _ _ => 1/2
    score := fun _ _ => 1
    delta := fun _ _ => 0
    initSign := fun _ _ => 1 }

/-- Concrete one-example run whose oracle reports the (single) pixel value as
the Dice score; the first candidate lowers it from 3/5 to 1/2, which is an
acceptance by strict loss improvement. -/
def cfgW2 : RunCfg 1 (Fin 1) :=
  { eps := 1/10
    thresh := 1/2
    nq := 5
    x := fun _ _ => 1/2
    score := fun _ img => img 0
    delta := fun _ _ => -(1/10)
    initSign := fun _ _ => 1 }

/-- Concrete one-example run whose oracle reports the pixel value; the first
candidate reaches 2/5 < 1/2, so the run succeeds at iteration 0. -/
def cfgW8 : RunCfg 1 (Fin 1) :=
  { eps := 1/10
    thresh := 1/2
    nq := 5
    x := fun _ _ => 1/2
    score := fun _ img => img 0
    delta := fun _ _ => -(1/5)
    initSign := fun _ _ => 1 }

/-- Concrete two-example attack: the oracle scores example 0 as Dice 1
(robust, never successfully attacked) and example 1 as Dice 0 (already below
the threshold before any restart), with a single restart. -/
def aW1 : AtkCfg 2 (Fin 1) (Fin 2) :=
  { eps := 1/10
    thresh := 1/2
    nq := 1
    nRestarts := 1
    x := fun _ _ => 1/2
    y := fun j => j
    score := fun l _ => if l = 0 then 1 else 0
    delta := fun _ _ _ => 0
    initSign := fun _ _ _ => 1 }

/-- Concrete one-example attack configured with zero restarts. -/
def aW10 : AtkCfg 1 (Fin 1) (Fin 1) :=
  { eps := 1/10
    thresh := 1/2
    nq := 3
    nRestarts := 0
    x := fun _ _ => 1/2
    y := fun j => j
    score := fun _ _ => 1
    delta := fun _ _ _ => 0
    initSign := fun _ _ _ => 1 }

/-- The result of `clamp01` is nonnegative. -/
theorem clamp01_nonneg (v : ℚ) : 0 ≤ clamp01 v := le_max_left 0 _

/-- The result of `clamp01` is at most one. -/
theorem clamp01_le_one (v : ℚ) : clamp01 v ≤ 1 :=
  max_le (by norm_num) (min_le_right v 1)

/-- Clamping to `[0,1]` moves a value towards any point of `[0,1]`. -/
theorem abs_clamp01_sub_le (x v : ℚ) (h0 : 0 ≤ x) (h1 : x ≤ 1) :
    |clamp01 v - x| ≤ |v - x| := by
  unfold clamp01
  rcases le_total v 0 with hv | hv
  · rw [min_eq_left (le_trans hv zero_le_one), max_eq_left hv,
      abs_of_nonpos (by linarith), abs_of_nonpos (by linarith)]
    linarith
  · rcases le_total v 1 with hv1 | hv1
    · rw [min_eq_left hv1, max_eq_right hv]
    · rw [min_eq_right hv1, max_eq_right zero_le_one,
        abs_of_nonneg (by linarith), abs_of_nonneg (by linarith)]
      linarith

/-- Clipping into the `eps`-ball lands inside the `eps`-ball. -/
theorem abs_clipBall_sub_le (x eps v : ℚ) (he : 0 ≤ eps) :
    |clipBall x eps v - x| ≤ eps := by
  unfold clipBall
  rw [abs_le]
  constructor
  · have h1 : x - eps ≤ max v (x - eps) := le_max_right _ _
    have h2 : x - eps ≤ x + eps := by linarith
    have h3 := le_min h1 h2
    linarith
  · have h4 := min_le_right (max v (x - eps)) (x + eps)
    linarith

/-- The candidate of lines 202-205 stays in the `eps`-ball around the
original pixel and inside `[0,1]`. -/
theorem xNewAt_bounds (c : RunCfg k E) (i : ℕ) (st : RunState k E) (j : Fin k)
    (e : E) (hx0 : 0 ≤ c.x j e) (hx1 : c.x j e ≤ 1) (he : 0 ≤ c.eps) :
    |xNewAt c i st j e - c.x j e| ≤ c.eps
    ∧ 0 ≤ xNewAt c i st j e ∧ xNewAt c i st j e ≤ 1 := by
  unfold xNewAt
  refine ⟨?_, clamp01_nonneg _, clamp01_le_one _⟩
  exact le_trans (abs_clamp01_sub_le _ _ hx0 hx1) (abs_clipBall_sub_le _ _ _ he)

/-- Executing one more iteration from the front is executing the iteration at
the back. -/
theorem iterFrom_succ_back (c : RunCfg k E) :
    ∀ (m i : ℕ) (st : RunState k E),
      iterFrom c i (m + 1) st = step c (i + m) (iterFrom c i m st) := by
  intro m
  induction m with
  | zero => intro i st; simp [iterFrom]
  | succ mm ih =>
    intro i st
    show iterFrom c (i + 1) (mm + 1) (step c i st)
        = step c (i + (mm + 1)) (iterFrom c (i + 1) mm (step c i st))
    rw [ih (i + 1) (step c i st)]
    congr 1
    omega

/-- `stateAfter` is `iterFrom` started at iteration 0 on the initial state. -/
theorem iterFrom_stateAfter (c : RunCfg k E) :
    ∀ t : ℕ, iterFrom c 0 t (initState c) = stateAfter c t := by
  intro t
  induction t with
  | zero => rfl
  | succ tt ih =>
    rw [iterFrom_succ_back, ih]
    show step c (0 + tt) (stateAfter c tt) = stateAfter c (tt + 1)
    rw [Nat.zero_add]
    rfl

/-- The loop never executes more iterations than its fuel. -/
theorem runFrom_len_le (c : RunCfg k E) :
    ∀ (fuel i : ℕ) (st : RunState k E), (runFrom c i fuel st).2 ≤ fuel := by
  intro fuel
  induction fuel with
  | zero => intro i st; simp [runFrom]
  | succ f ih =>
    intro i st
    simp only [runFrom]
    split
    · simp
    · simpa using ih (i + 1) (step c i st)

/-- The state returned by the loop is the iterate of `step` over the executed
iterations. -/
theorem runFrom_fst (c : RunCfg k E) :
    ∀ (fuel i : ℕ) (st : RunState k E),
      (runFrom c i fuel st).1 = iterFrom c i (runFrom c i fuel st).2 st := by
  intro fuel
  induction fuel with
  | zero => intro i st; rfl
  | succ f ih =>
    intro i st
    simp only [runFrom]
    split
    · simp [iterFrom]
    · simpa [iterFrom] using ih (i + 1) (step c i st)

/-- When the loop stops before exhausting its fuel, the break test held on
the final state. -/
theorem runFrom_early_succ (c : RunCfg k E) :
    ∀ (fuel i : ℕ) (st : RunState k E),
      (runFrom c i fuel st).2 < fuel → allSucc c (runFrom c i fuel st).1 := by
  intro fuel
  induction fuel with
  | zero => intro i st h; omega
  | succ f ih =>
    intro i st
    simp only [runFrom]
    split
    · intro _; assumption
    · intro h
      exact ih (i + 1) (step c i st) (by omega)

/-- No iteration strictly before the last executed one passed the break
test. -/
theorem runFrom_no_early (c : RunCfg k E) :
    ∀ (fuel i : ℕ) (st : RunState k E) (t : ℕ),
      t + 1 < (runFrom c i fuel st).2 → ¬ allSucc c (iterFrom c i (t + 1) st) := by
  intro fuel
  induction fuel with
  | zero => intro i st t h; simp [runFrom] at h
  | succ f ih =>
    intro i st t
    simp only [runFrom]
    split
    · intro h; omega
    · intro h
      match t with
      | 0 =>
        show ¬ allSucc c (iterFrom c (i + 1) 0 (step c i st))
        simpa [iterFrom] using by assumption
      | tt + 1 =>
        show ¬ allSucc c (iterFrom c (i + 1) (tt + 1) (step c i st))
        exact ih (i + 1) (step c i st) tt (by omega)

/-- If some iteration passes the break test, the loop executes no iteration
beyond it. -/
theorem runFrom_stops (c : RunCfg k E) :
    ∀ (fuel i : ℕ) (st : RunState k E) (t : ℕ),
      allSucc c (iterFrom c i (t + 1) st) → (runFrom c i fuel st).2 ≤ t + 1 := by
  intro fuel
  induction fuel with
  | zero => intro i st t _; simp [runFrom]
  | succ f ih =>
    intro i st t
    simp only [runFrom]
    split
    · intro _; simp
    · intro h
      match t with
      | 0 =>
        exfalso
        have h1 : allSucc c (step c i st) := by simpa [iterFrom] using h
        exact absurd h1 (by assumption)
      | tt + 1 =>
        have h2 : allSucc c (iterFrom c (i + 1) (tt + 1) (step c i st)) := h
        have h3 := ih (i + 1) (step c i st) tt h2
        simpa using Nat.succ_le_succ h3

/-- Projection of `step` on the query counters (line 226): one more query for
each example of the active set of line 183, nothing for the others. -/
theorem step_nQueries (c : RunCfg k E) (i : ℕ) (st : RunState k E) (j : Fin k) :
    (step c i st).nQueries j
      = if c.thresh < st.marginMin j then st.nQueries j + 1 else st.nQueries j :=
  rfl

/-- Projection of `step` on the `predict` invocation counter: three batched
invocations per iteration (lines 208, 228, 230). -/
theorem step_predictCalls (c : RunCfg k E) (i : ℕ) (st : RunState k E) :
    (step c i st).predictCalls = st.predictCalls + 3 :=
  rfl

/-- Reachability invariant: in this instantiation the margin and the loss are
the same Dice number (lines 69-76), so the two best-value trackers stay equal
throughout a run. -/
theorem marginMin_eq_lossMin (c : RunCfg k E) (t : ℕ) (j : Fin k) :
    (stateAfter c t).marginMin j = (stateAfter c t).lossMin j := by
  induction t with
  | zero => rfl
  | succ t ih =>
    simp only [stateAfter, step]
    split_ifs with h1 h2 h2
    · rfl
    · exfalso
      obtain ⟨hA, hor⟩ := h1
      rcases hor with hd | hd
      · exact h2 ⟨hA, hd⟩
      · have hdl : diceAt c t j < (stateAfter c t).lossMin j := by
          have : c.thresh < (stateAfter c t).lossMin j := ih ▸ hA
          exact lt_trans hd this
        exact h2 ⟨hA, hdl⟩
    · exfalso
      exact h1 ⟨h2.1, Or.inl h2.2⟩
    · exact ih

/-- Each loop iteration increments a query counter by at most one. -/
theorem step_nQueries_le (c : RunCfg k E) (i : ℕ) (st : RunState k E)
    (j : Fin k) : (step c i st).nQueries j ≤ st.nQueries j + 1 := by
  rw [step_nQueries]
  split_ifs <;> linarith

/-- Over `m` iterations a query counter gains at most `m`. -/
theorem iterFrom_nQueries_le (c : RunCfg k E) :
    ∀ (m i : ℕ) (st : RunState k E) (j : Fin k),
      (iterFrom c i m st).nQueries j ≤ st.nQueries j + (m : ℚ) := by
  intro m
  induction m with
  | zero => intro i st j; simp [iterFrom]
  | succ mm ih =>
    intro i st j
    have h1 := ih (i + 1) (step c i st) j
    have h2 := step_nQueries_le c i st j
    have h3 : (iterFrom c i (mm + 1) st).nQueries j
        = (iterFrom c (i + 1) mm (step c i st)).nQueries j := rfl
    rw [h3]
    push_cast
    push_cast at h1
    linarith

/-- The `x_best` returned by `attack_single_run` is the `x_best` of the state
reached after the executed iterations. -/
theorem attack_single_run_snd (c : RunCfg k E) :
    (attack_single_run c).2 = (stateAfter c (runExec c).2).xBest := by
  show (runExec c).1.xBest = _
  rw [runExec, runFrom_fst, iterFrom_stateAfter]

/-- The query counters returned by `attack_single_run` are those of the state
reached after the executed iterations. -/
theorem attack_single_run_fst (c : RunCfg k E) :
    (attack_single_run c).1 = (stateAfter c (runExec c).2).nQueries := by
  show (runExec c).1.nQueries = _
  rw [runExec, runFrom_fst, iterFrom_stateAfter]

/-- Budget invariant of a run: at every iteration, `x_best` stays inside the
intersection of the `eps`-ball around the original batch and the `[0,1]`
box. -/
theorem xBest_inv (c : RunCfg k E)
    (hx : ∀ j e, 0 ≤ c.x j e ∧ c.x j e ≤ 1) (he : 0 ≤ c.eps)
    (hs : ∀ j e, |c.initSign j e| ≤ 1) :
    ∀ (t : ℕ) (j : Fin k) (e : E),
      |(stateAfter c t).xBest j e - c.x j e| ≤ c.eps
      ∧ 0 ≤ (stateAfter c t).xBest j e ∧ (stateAfter c t).xBest j e ≤ 1 := by
  intro t
  induction t with
  | zero =>
    intro j e
    refine ⟨?_, clamp01_nonneg _, clamp01_le_one _⟩
    show |clamp01 (c.x j e + c.eps * c.initSign j e) - c.x j e| ≤ c.eps
    refine le_trans (abs_clamp01_sub_le _ _ (hx j e).1 (hx j e).2) ?_
    have h1 : c.x j e + c.eps * c.initSign j e - c.x j e
        = c.eps * c.initSign j e := by ring
    rw [h1, abs_mul, abs_of_nonneg he]
    calc c.eps * |c.initSign j e| ≤ c.eps * 1 :=
          mul_le_mul_of_nonneg_left (hs j e) he
      _ = c.eps := mul_one _
  | succ t ih =>
    intro j e
    simp only [stateAfter, step]
    split_ifs with h
    · exact xNewAt_bounds c t (stateAfter c t) j e (hx j e).1 (hx j e).2 he
    · exact ih j e

/-- A state whose `acc` flags are all cleared has an empty `ind_to_fool`. -/
theorem indToFool_nil {st : PState n E} (h : ∀ j, st.acc j = false) :
    indToFool st = [] := by
  simp only [indToFool, List.filter_eq_nil_iff]
  intro j _
  simp [h j]

/-- A restart on a state with no active example does nothing (line 277). -/
theorem restartStep_of_acc_false (a : AtkCfg n E L) (t : ℕ) {st : PState n E}
    (h : ∀ j, st.acc j = false) : restartStep a t st = st := by
  unfold restartStep
  rw [indToFool_nil h]
  rfl

/-- The whole restart loop does nothing when no example is active. -/
theorem pLoopFrom_of_acc_false (a : AtkCfg n E L) :
    ∀ (r t : ℕ) {st : PState n E}, (∀ j, st.acc j = false) →
      pLoopFrom a t r st = st := by
  intro r
  induction r with
  | zero => intro t st _; rfl
  | succ rr ih =>
    intro t st h
    show pLoopFrom a (t + 1) rr (restartStep a t st) = st
    rw [restartStep_of_acc_false a t h]
    exact ih (t + 1) h

/-- A restart preserves the budget property of `adv_curr`: any `adv_curr` it
writes is an `x_best` produced by `attack_single_run` on a subset of the
original batch. -/
theorem advCurrOK_restartStep (a : AtkCfg n E L)
    (hx : ∀ j e, 0 ≤ a.x j e ∧ a.x j e ≤ 1) (he : 0 ≤ a.eps)
    (hs : ∀ t p e, |a.initSign t p e| ≤ 1)
    (t : ℕ) (st : PState n E) (hok : advCurrOK a st.advCurr) :
    advCurrOK a (restartStep a t st).advCurr := by
  simp only [restartStep]
  split
  · exact hok
  · intro i e
    show |(attack_single_run (subCfg a t (indToFool st))).2 i e
        - a.x ((indToFool st).get i) e| ≤ a.eps ∧ _
    rw [attack_single_run_snd]
    have hb := xBest_inv (subCfg a t (indToFool st))
      (fun i e => hx ((indToFool st).get i) e) he
      (fun i e => hs t i.val e)
      (runExec (subCfg a t (indToFool st))).2 i e
    exact hb

/-- The whole restart loop preserves the budget property of `adv_curr`. -/
theorem advCurrOK_pLoopFrom (a : AtkCfg n E L)
    (hx : ∀ j e, 0 ≤ a.x j e ∧ a.x j e ≤ 1) (he : 0 ≤ a.eps)
    (hs : ∀ t p e, |a.initSign t p e| ≤ 1) :
    ∀ (r t : ℕ) (st : PState n E), advCurrOK a st.advCurr →
      advCurrOK a (pLoopFrom a t r st).advCurr := by
  intro r
  induction r with
  | zero => intro t st hok; exact hok
  | succ rr ih =>
    intro t st hok
    exact ih (t + 1) (restartStep a t st)
      (advCurrOK_restartStep a hx he hs t st hok)

/-- C2: in each iteration of the single-run optimizer, for every active
example (`margin_min > τ`, line 183) the triple `(x_best, margin_min,
loss_min)` is replaced by the candidate's values exactly when the candidate's
Dice score is strictly below the previous best loss or below the threshold
`τ`, and all three stay unchanged otherwise.  (In this instantiation the
candidate's margin and loss are the same Dice number, and for reachable
states acceptance by success entails acceptance by loss, so the source's
loss-only update of lines 212-213 agrees with the claim.) -/
theorem C2_acceptance_rule (c : RunCfg k E) (t : ℕ) (j : Fin k)
    (hact : c.thresh < (stateAfter c t).marginMin j) :
    (diceAt c t j < (stateAfter c t).lossMin j ∨ diceAt c t j < c.thresh →
      (stateAfter c (t + 1)).xBest j = xNewAt c t (stateAfter c t) j
      ∧ (stateAfter c (t + 1)).marginMin j = diceAt c t j
      ∧ (stateAfter c (t + 1)).lossMin j = diceAt c t j)
    ∧ (¬ (diceAt c t j < (stateAfter c t).lossMin j ∨ diceAt c t j < c.thresh) →
      (stateAfter c (t + 1)).xBest j = (stateAfter c t).xBest j
      ∧ (stateAfter c (t + 1)).marginMin j = (stateAfter c t).marginMin j
      ∧ (stateAfter c (t + 1)).lossMin j = (stateAfter c t).lossMin j) := by
  have hml := marginMin_eq_lossMin c t j
  constructor
  · intro hacc
    have hdl : diceAt c t j < (stateAfter c t).lossMin j := by
      rcases hacc with h1 | h1
      · exact h1
      · exact lt_trans h1 (hml ▸ hact)
    refine ⟨?_, ?_, ?_⟩
    · show (step c t (stateAfter c t)).xBest j = _
      simp only [step]
      split_ifs with h
      · rfl
      · exact absurd ⟨hact, Or.inl hdl⟩ h
    · show (step c t (stateAfter c t)).marginMin j = _
      simp only [step]
      split_ifs with h
      · rfl
      · exact absurd ⟨hact, Or.inl hdl⟩ h
    · show (step c t (stateAfter c t)).lossMin j = _
      simp only [step]
      split_ifs with h
      · rfl
      · exact absurd ⟨hact, hdl⟩ h
  · intro hrej
    refine ⟨?_, ?_, ?_⟩
    · show (step c t (stateAfter c t)).xBest j = _
      simp only [step]
      split_ifs with h
      · exact absurd h.2 hrej
      · rfl
    · show (step c t (stateAfter c t)).marginMin j = _
      simp only [step]
      split_ifs with h
      · exact absurd h.2 hrej
      · rfl
    · show (step c t (stateAfter c t)).lossMin j = _
      simp only [step]
      split_ifs with h
      · exact absurd (Or.inl h.2) hrej
      · rfl

/-- Witness for C2: a concrete active example whose first candidate is
accepted by strict loss improvement, with all three trackers replaced. -/
theorem C2_witness :
    (stateAfter cfgW2 1).xBest 0 = xNewAt cfgW2 0 (stateAfter cfgW2 0) 0
    ∧ (stateAfter cfgW2 1).marginMin 0 = diceAt cfgW2 0 0
    ∧ (stateAfter cfgW2 1).lossMin 0 = diceAt cfgW2 0 0 :=
  (C2_acceptance_rule cfgW2 0 0 (by
      norm_num [stateAfter, initState, cfgW2, clamp01, min_def, max_def])).1
    (Or.inl (by
      norm_num [diceAt, xNewAt, stateAfter, initState, cfgW2, clamp01, clipBall,
        min_def, max_def]))

/-- C3: for every example, `loss_min` and `margin_min` are non-increasing
across the iterations of a single run. -/
theorem C3_monotone (c : RunCfg k E) (t : ℕ) (j : Fin k) :
    (stateAfter c (t + 1)).lossMin j ≤ (stateAfter c t).lossMin j
    ∧ (stateAfter c (t + 1)).marginMin j ≤ (stateAfter c t).marginMin j := by
  have hml := marginMin_eq_lossMin c t j
  constructor
  · show (step c t (stateAfter c t)).lossMin j ≤ _
    simp only [step]
    split_ifs with h
    · exact le_of_lt h.2
    · exact le_rfl
  · show (step c t (stateAfter c t)).marginMin j ≤ _
    simp only [step]
    split_ifs with h
    · obtain ⟨hA, hor⟩ := h
      rcases hor with h1 | h1
      · rw [hml]
        exact le_of_lt h1
      · exact le_of_lt (lt_trans h1 hA)
    · exact le_rfl

/-- C5 counterexample: with `p_init = 0.8`, `rescale_schedule = true` and
`n_queries = 5000`, iteration 1000 rescales to 2000, which falls in the
`1000 < it ≤ 2000` branch, so the code returns `p_init/32 = 0.025`, not the
claimed `0.0125 = p_init/64`. -/
theorem C5_counterexample :
    p_selection (4/5) 5000 true 1000 = 1/40
    ∧ p_selection (4/5) 5000 true 1000 ≠ 1/80 := by
  constructor
  · norm_num [p_selection]
  · norm_num [p_selection]

/-- C5 amended: the schedule with `p_init = 0.8`, rescaling and
`n_queries = 5000` returns `0.8` at iteration 0, `0.2` (`p_init/4`) at
iteration 100 (rescaled 200), and `0.025` (`p_init/32`) at iteration 1000
(rescaled 2000). -/
theorem C5_amended :
    p_selection (4/5) 5000 true 0 = 4/5
    ∧ p_selection (4/5) 5000 true 100 = 1/5
    ∧ p_selection (4/5) 5000 true 1000 = 1/40 := by
  refine ⟨?_, ?_, ?_⟩ <;> norm_num [p_selection]

/-- C6 counterexample: with a one-iteration budget and an oracle that never
succeeds, the returned query counter is 2, exceeding `n_queries = 1` (the
counter starts at 1 for the initialization query, line 179, and gains one in
the single loop iteration, line 226). -/
theorem C6_counterexample :
    (attack_single_run cfgW6).1 0 = 2
    ∧ ¬ (attack_single_run cfgW6).1 0 ≤ (cfgW6.nq : ℚ) := by
  have h : (attack_single_run cfgW6).1 0 = 2 := by
    norm_num [attack_single_run, runExec, runFrom, allSucc, initState, step, xNewAt,
      cfgW6, clamp01, clipBall, min_def, max_def, Fin.forall_fin_one]
  refine ⟨h, ?_⟩
  rw [h]
  norm_num [cfgW6]

/-- C6 amended: the final query counter of every example is at most
`n_queries + 1` (the initialization query plus at most one query per loop
iteration), and within each iteration the counter gains exactly 1 when the
example is active and stays unchanged when it is not. -/
theorem C6_amended (c : RunCfg k E) :
    (∀ j, (attack_single_run c).1 j ≤ (c.nq : ℚ) + 1)
    ∧ ∀ (t : ℕ) (j : Fin k),
      (c.thresh < (stateAfter c t).marginMin j →
        (stateAfter c (t + 1)).nQueries j = (stateAfter c t).nQueries j + 1)
      ∧ (¬ c.thresh < (stateAfter c t).marginMin j →
        (stateAfter c (t + 1)).nQueries j = (stateAfter c t).nQueries j) := by
  constructor
  · intro j
    rw [attack_single_run_fst]
    have h1 := iterFrom_nQueries_le c (runExec c).2 0 (initState c) j
    rw [iterFrom_stateAfter] at h1
    have h2 : (initState c).nQueries j = 1 := rfl
    rw [h2] at h1
    have h3 : ((runExec c).2 : ℚ) ≤ (c.nq : ℚ) := by
      exact_mod_cast runFrom_len_le c c.nq 0 (initState c)
    linarith
  · intro t j
    constructor
    · intro h
      show (step c t (stateAfter c t)).nQueries j = _
      rw [step_nQueries, if_pos h]
    · intro h
      show (step c t (stateAfter c t)).nQueries j = _
      rw [step_nQueries, if_neg h]

/-- Witness for C6 amended: the one-iteration configuration stays within the
amended bound and its active example is charged exactly one query. -/
theorem C6_witness :
    (attack_single_run cfgW6).1 0 ≤ (cfgW6.nq : ℚ) + 1
    ∧ (stateAfter cfgW6 1).nQueries 0 = (stateAfter cfgW6 0).nQueries 0 + 1 :=
  ⟨(C6_amended cfgW6).1 0,
    ((C6_amended cfgW6).2 0 0).1 (by
      norm_num [stateAfter, initState, cfgW6, clamp01, min_def, max_def])⟩

/-- C7 counterexample: after one loop iteration the `predict` invocation
counter has grown from 1 to 4 — three invocations in the iteration
(lines 208, 228, 230), not the claimed single one. -/
theorem C7_counterexample :
    (stateAfter cfgW6 1).predictCalls = 4
    ∧ (stateAfter cfgW6 0).predictCalls = 1
    ∧ (stateAfter cfgW6 1).predictCalls ≠ (stateAfter cfgW6 0).predictCalls + 1 :=
  ⟨rfl, rfl, by decide⟩

/-- C7 amended: every loop iteration makes exactly three `predict`
invocations — one on the active-subset candidate batch (line 208, the only
charged one) and two on the full `x_best` batch for success monitoring
(lines 228 and 230) — and the candidate call is charged as exactly one query
to each active example and to no inactive example. -/
theorem C7_amended (c : RunCfg k E) (t : ℕ) :
    (stateAfter c (t + 1)).predictCalls = (stateAfter c t).predictCalls + 3
    ∧ ∀ j : Fin k,
      (c.thresh < (stateAfter c t).marginMin j →
        (stateAfter c (t + 1)).nQueries j = (stateAfter c t).nQueries j + 1)
      ∧ (¬ c.thresh < (stateAfter c t).marginMin j →
        (stateAfter c (t + 1)).nQueries j = (stateAfter c t).nQueries j) := by
  refine ⟨rfl, fun j => ⟨fun h => ?_, fun h => ?_⟩⟩
  · show (step c t (stateAfter c t)).nQueries j = _
    rw [step_nQueries, if_pos h]
  · show (step c t (stateAfter c t)).nQueries j = _
    rw [step_nQueries, if_neg h]

/-- Witness for C7 amended at the concrete one-example configuration. -/
theorem C7_witness :
    (stateAfter cfgW6 1).predictCalls = (stateAfter cfgW6 0).predictCalls + 3
    ∧ (stateAfter cfgW6 1).nQueries 0 = (stateAfter cfgW6 0).nQueries 0 + 1 :=
  ⟨(C7_amended cfgW6 0).1,
    ((C7_amended cfgW6 0).2 0).1 (by
      norm_num [stateAfter, initState, cfgW6, clamp01, min_def, max_def])⟩

/-- C8: a single run stops early exactly at the first iteration after which
every example of its batch scores below `τ` on the current `x_best`, and
otherwise runs its full `n_queries` iteration budget: the executed iteration
count never exceeds the budget, the returned state is the iterate of the
executed iterations, stopping short of the budget implies full success, no
earlier iteration passed the success test, and any iteration passing the
test stops the loop there. -/
theorem C8_early_termination (c : RunCfg k E) :
    (runExec c).2 ≤ c.nq
    ∧ (runExec c).1 = stateAfter c (runExec c).2
    ∧ ((runExec c).2 < c.nq → allSucc c (stateAfter c (runExec c).2))
    ∧ (∀ t : ℕ, t + 1 < (runExec c).2 → ¬ allSucc c (stateAfter c (t + 1)))
    ∧ (∀ t : ℕ, allSucc c (stateAfter c (t + 1)) → (runExec c).2 ≤ t + 1) := by
  have hfst : (runExec c).1 = stateAfter c (runExec c).2 := by
    rw [runExec, runFrom_fst, iterFrom_stateAfter]
  refine ⟨runFrom_len_le c c.nq 0 (initState c), hfst, ?_, ?_, ?_⟩
  · intro h
    rw [← hfst]
    exact runFrom_early_succ c c.nq 0 (initState c) h
  · intro t h
    rw [← iterFrom_stateAfter]
    exact runFrom_no_early c c.nq 0 (initState c) t h
  · intro t h
    rw [← iterFrom_stateAfter] at h
    exact runFrom_stops c c.nq 0 (initState c) t h

/-- Witness for C8: a concrete run that is fully successful after its first
iteration executes exactly that one iteration of its five-iteration budget. -/
theorem C8_witness :
    allSucc cfgW8 (stateAfter cfgW8 1) ∧ (runExec cfgW8).2 ≤ 1 := by
  have hs : allSucc cfgW8 (stateAfter cfgW8 1) := by
    norm_num [allSucc, stateAfter, step, initState, xNewAt, cfgW8, clamp01, clipBall,
      min_def, max_def, Fin.forall_fin_one]
  exact ⟨hs, (C8_early_termination cfgW8).2.2.2.2 0 hs⟩

/-- C10: when the optimizer is never invoked — zero restarts, or an initial
active set that is empty because every example already scores at or below
`τ` — `perturb` returns its never-assigned loop-local `adv_curr`, modelled as
`none` (Python raises `UnboundLocalError` at line 293). -/
theorem C10_unbound_local (a : AtkCfg n E L)
    (h : a.nRestarts = 0 ∨ ∀ j, ¬ a.thresh < a.score (a.y j) (a.x j)) :
    perturb a = none := by
  rcases h with h | h
  · unfold perturb perturbFinal
    rw [h]
    rfl
  · unfold perturb perturbFinal
    rw [pLoopFrom_of_acc_false a a.nRestarts 0 (fun j => by
      simp only [pInit, decide_eq_false_iff_not]
      exact h j)]
    rfl

/-- Witness for C10: the zero-restart configuration yields the unbound
result. -/
theorem C10_witness : perturb aW10 = none :=
  C10_unbound_local aW10 (Or.inl rfl)

/-- C1 (evaluation at the failing input): on a two-example batch where only
example 0 is initially active and the single restart fails on it, `perturb`
returns the last restart's subset batch of size 1 — not the running merged
output batch `adv`, which is the full two-example batch and here equals the
clean input. -/
theorem C1_returns_last_restart_batch :
    (perturb aW1).map (fun p => p.1) = some 1
    ∧ ∀ (j : Fin 2) (e : Fin 1), (perturbFinal aW1).adv j e = aW1.x j e := by
  constructor
  · norm_num [perturb, perturbFinal, pLoopFrom, restartStep, pInit, indToFool, subCfg,
      aW1, attack_single_run, runExec, runFrom, allSucc, initState, step, xNewAt,
      clamp01, clipBall, min_def, max_def, Fin.forall_fin_one, List.finRange,
      List.filter]
  · norm_num [perturbFinal, pLoopFrom, restartStep, pInit, indToFool, subCfg,
      aW1, attack_single_run, runExec, runFrom, allSucc, initState, step, xNewAt,
      clamp01, clipBall, min_def, max_def, Fin.forall_fin_one, Fin.forall_fin_two,
      List.finRange, List.filter, List.find?]

/-- C4: (run part) under a clean batch inside `[0,1]`, a nonnegative budget
and sign draws of magnitude at most 1, every `x_best` of every iteration of a
run stays within `eps` of the original batch elementwise and inside `[0,1]`;
(output part) under the same hypotheses, whatever batch `perturb` returns
satisfies the same bounds against the corresponding original examples. -/
theorem C4_budget :
    (∀ (kk : ℕ) (EE : Type) (c : RunCfg kk EE),
      (∀ j e, 0 ≤ c.x j e ∧ c.x j e ≤ 1) → 0 ≤ c.eps →
      (∀ j e, |c.initSign j e| ≤ 1) →
      ∀ (t : ℕ) (j : Fin kk) (e : EE),
        |(stateAfter c t).xBest j e - c.x j e| ≤ c.eps
        ∧ 0 ≤ (stateAfter c t).xBest j e ∧ (stateAfter c t).xBest j e ≤ 1)
    ∧ (∀ (nn : ℕ) (EE LL : Type) (a : AtkCfg nn EE LL),
      (∀ j e, 0 ≤ a.x j e ∧ a.x j e ≤ 1) → 0 ≤ a.eps →
      (∀ t p e, |a.initSign t p e| ≤ 1) →
      advCurrOK a (perturbFinal a).advCurr) :=
  ⟨fun _ _ c hx he hs => xBest_inv c hx he hs,
   fun _ _ _ a hx he hs =>
     advCurrOK_pLoopFrom a hx he hs a.nRestarts 0 (pInit a) trivial⟩

/-- Witness for C4 at a concrete configuration and iteration. -/
theorem C4_witness :
    |(stateAfter cfgW2 1).xBest 0 0 - cfgW2.x 0 0| ≤ cfgW2.eps
    ∧ 0 ≤ (stateAfter cfgW2 1).xBest 0 0 ∧ (stateAfter cfgW2 1).xBest 0 0 ≤ 1 :=
  C4_budget.1 1 (Fin 1) cfgW2
    (fun j e => by norm_num [cfgW2])
    (by norm_num [cfgW2])
    (fun j e => by norm_num [cfgW2])
    1 0 0

/-- C9 counterexample: constructing the attack without supplying `seed`
leaves the default `0`, which `init_hyperparam` keeps — the resolved seed is
0, not the wall-clock time (here 12345). -/
theorem C9_counterexample :
    resolve_seed default_seed 12345 = 0
    ∧ resolve_seed default_seed 12345 ≠ 12345 := by
  constructor
  · rfl
  · show (0 : ℚ) ≠ 12345
    norm_num

/-- C9 amended: an unsupplied `seed` defaults to 0; only an explicitly-`None`
seed is replaced by the wall-clock time in `init_hyperparam`; any other
supplied seed is used as given. -/
theorem C9_amended :
    (∀ wc : ℚ, resolve_seed default_seed wc = 0)
    ∧ (∀ wc : ℚ, resolve_seed none wc = wc)
    ∧ (∀ s wc : ℚ, resolve_seed (some s) wc = s) :=
  ⟨fun _ => rfl, fun _ => rfl, fun _ _ => rfl⟩

end SquareAttack
